import Mathlib

/-
  Verification development for the bound_buffer_demo repository.

  The repository implements a bounded blocking FIFO queue (BoundBuffer) in two
  places: a generic version in src/lib.rs and a specialized f32 version in
  src/main.rs.  The shared state of a BoundBuffer<T> consists of
    - size  : usize                       (capacity bound, fixed at construction)
    - buffer: Mutex<VecDeque<T>>          (the FIFO contents)
    - add   : (Mutex<bool>, Condvar)      (readiness flag: buffer ready for queue)
    - remove: (Mutex<bool>, Condvar)      (readiness flag: buffer ready for dequeue)

  We embed the sequential completed-operation semantics: an operation that would
  block forever in a single-threaded execution is modelled as returning none.
  A queue call (lib.rs lines 42-74) completes without waiting exactly when, after
  the entry check (which sets the add flag to false when len >= size), the add
  flag is true, i.e. when the flag was true on entry and len < size.  It then
  pushes the value at the back and sets the remove flag to true.  A dequeue call
  (lib.rs lines 83-125) completes exactly when the buffer is non-empty and the
  remove flag is true on entry; it pops the front, sets the add flag to true,
  and finally re-locks the remove flag, setting it to false when the buffer has
  become empty.
-/

namespace BoundBufferDemo

/-- State of the generic BoundBuffer<T> of src/lib.rs (lines 17-22).  The Rust
VecDeque is modelled as a list whose head is the front of the deque; the two
condvar-paired booleans are the mutex-protected flag values. -/
structure BoundBuffer (T : Type) where
  size : Nat
  buffer : List T
  add : Bool
  remove : Bool
deriving Repr, DecidableEq

/-- BoundBuffer::new (lib.rs lines 26-33): empty deque with capacity `size`,
add flag true, remove flag false.  The source performs no validation of the
requested size; the constructor is total. -/
def BoundBuffer.new (T : Type) (size : Nat) : BoundBuffer T :=
  { size := size, buffer := [], add := true, remove := false }

/-- BoundBuffer::queue (lib.rs lines 42-74), completed-operation semantics.
The entry check sets the add flag to false when buff.len() >= self.size, and
the call proceeds past the wait loop only when the flag is then still true;
so the call completes without blocking iff the add flag was true and
len < size.  Effect: push_back the value, then set the remove flag to true
(and notify).  The add flag itself is not updated after the push. -/
def BoundBuffer.queue (b : BoundBuffer T) (v : T) : Option (BoundBuffer T) :=
  if b.add = true ∧ b.buffer.length < b.size then
    some { b with buffer := b.buffer ++ [v], remove := true }
  else
    none

/-- BoundBuffer::dequeue (lib.rs lines 83-125), completed-operation semantics.
The entry check sets the remove flag to false when the deque is empty, and the
call proceeds past the wait loop only when the flag is then still true; so the
call completes without blocking iff the deque was non-empty and the remove
flag was true.  Effect: pop_front, set the add flag to true (and notify), then
re-lock the remove flag and set it to false when the deque has become empty
(lib.rs lines 116-122). -/
def BoundBuffer.dequeue (b : BoundBuffer T) : Option (T × BoundBuffer T) :=
  match b.buffer with
  | [] => none
  | v :: rest =>
    if b.remove = true then
      some (v, { b with buffer := rest, add := true,
                        remove := if rest.isEmpty then false else true })
    else
      none

/-- An operation issued against a buffer: queue a value, or dequeue. -/
inductive Op (T : Type) where
  | queue (v : T)
  | dequeue
deriving Repr, DecidableEq

/-- Run a sequence of operations from a given state.  The run succeeds (is a
sequence of completed operations) only when every operation completes; it
returns the final state together with the list of values returned by the
dequeue calls, in order. -/
def runFrom (b : BoundBuffer T) : List (Op T) → Option (BoundBuffer T × List T)
  | [] => some (b, [])
  | Op.queue v :: rest =>
    match b.queue v with
    | none => none
    | some b1 => runFrom b1 rest
  | Op.dequeue :: rest =>
    match b.dequeue with
    | none => none
    | some (v, b1) =>
      match runFrom b1 rest with
      | none => none
      | some (b2, outs) => some (b2, v :: outs)

/-- Run a sequence of operations from a freshly constructed buffer of the
given capacity. -/
def run (T : Type) (c : Nat) (ops : List (Op T)) : Option (BoundBuffer T × List T) :=
  runFrom (BoundBuffer.new T c) ops

/-- The values accepted by the queue calls of an operation sequence, in order.
For a succeeding run every queue call in the sequence completed, so these are
exactly the accepted values. -/
def inputs : List (Op T) → List T
  | [] => []
  | Op.queue v :: rest => v :: inputs rest
  | Op.dequeue :: rest => inputs rest

/-- Invariant of lib.rs buffer states reachable by completed operations from a
fresh buffer of capacity c: the size field is c, the add flag is true, the
length never exceeds c, and the remove flag is true exactly when the deque is
non-empty. -/
def Inv (c : Nat) (b : BoundBuffer T) : Prop :=
  b.size = c ∧ b.add = true ∧ b.buffer.length ≤ c ∧ (b.remove = true ↔ b.buffer ≠ [])

theorem inv_new (T : Type) (c : Nat) : Inv c (BoundBuffer.new T c) := by
  refine ⟨rfl, rfl, Nat.zero_le c, ?_⟩
  simp [BoundBuffer.new]

theorem queue_some_inv {c : Nat} {b b1 : BoundBuffer T} {v : T}
    (hInv : Inv c b) (h : b.queue v = some b1) :
    Inv c b1 ∧ b1.buffer = b.buffer ++ [v] := by
  unfold BoundBuffer.queue at h
  split at h
  case isTrue hcond =>
    obtain ⟨hsize, hadd, hlen, hrem⟩ := hInv
    injection h with h
    subst h
    refine ⟨⟨hsize, hadd, ?_, ?_⟩, rfl⟩
    · simpa using Nat.succ_le_of_lt (hsize ▸ hcond.2)
    · simp
  case isFalse => exact absurd h (by simp)

theorem dequeue_some_inv {c : Nat} {b b1 : BoundBuffer T} {v : T}
    (hInv : Inv c b) (h : b.dequeue = some (v, b1)) :
    Inv c b1 ∧ b.buffer = v :: b1.buffer := by
  unfold BoundBuffer.dequeue at h
  obtain ⟨hsize, hadd, hlen, hrem⟩ := hInv
  match hbuf : b.buffer with
  | [] => rw [hbuf] at h; exact absurd h (by simp)
  | w :: rest =>
    rw [hbuf] at h
    dsimp only at h
    split at h
    next hr =>
      injection h with h
      injection h with hv hb
      subst hb
      subst hv
      refine ⟨⟨hsize, rfl, ?_, ?_⟩, by simp [hbuf]⟩
      · have : rest.length + 1 ≤ c := by
          simpa [hbuf] using hlen
        exact Nat.le_of_succ_le this
      · cases rest <;> simp
    next => exact absurd h (by simp)

/-- The central run invariant: from a state satisfying the invariant, any
succeeding run preserves the invariant and conserves the values: the dequeued
outputs followed by the final buffer contents equal the initial buffer
contents followed by the accepted inputs. -/
theorem runFrom_inv {c : Nat} :
    ∀ (ops : List (Op T)) (b b2 : BoundBuffer T) (outs : List T),
    Inv c b → runFrom b ops = some (b2, outs) →
    Inv c b2 ∧ outs ++ b2.buffer = b.buffer ++ inputs ops := by
  intro ops
  induction ops with
  | nil =>
    intro b b2 outs hInv hrun
    unfold runFrom at hrun
    injection hrun with hrun
    injection hrun with hb houts
    subst hb; subst houts
    simpa [inputs] using hInv
  | cons op rest ih =>
    intro b b2 outs hInv hrun
    cases op with
    | queue v =>
      unfold runFrom at hrun
      match hq : b.queue v with
      | none => rw [hq] at hrun; exact absurd hrun (by simp)
      | some b1 =>
        rw [hq] at hrun
        obtain ⟨hInv1, hbuf1⟩ := queue_some_inv hInv hq
        obtain ⟨hInv2, hcons⟩ := ih b1 b2 outs hInv1 hrun
        refine ⟨hInv2, ?_⟩
        rw [hcons, hbuf1, inputs]
        simp
    | dequeue =>
      unfold runFrom at hrun
      match hd : b.dequeue with
      | none => rw [hd] at hrun; exact absurd hrun (by simp)
      | some (v, b1) =>
        rw [hd] at hrun
        dsimp only at hrun
        obtain ⟨hInv1, hbuf1⟩ := dequeue_some_inv hInv hd
        match hr : runFrom b1 rest with
        | none => rw [hr] at hrun; exact absurd hrun (by simp)
        | some (b3, outs1) =>
          rw [hr] at hrun
          dsimp only at hrun
          injection hrun with hrun
          injection hrun with hb houts
          subst hb; subst houts
          obtain ⟨hInv2, hcons⟩ := ih b1 b3 outs1 hInv1 hr
          refine ⟨hInv2, ?_⟩
          simp [hcons, hbuf1, inputs]

/-- Specialization of the run invariant to runs from a fresh buffer. -/
theorem run_inv {c : Nat} {ops : List (Op T)} {b : BoundBuffer T} {outs : List T}
    (h : run T c ops = some (b, outs)) :
    Inv c b ∧ outs ++ b.buffer = inputs ops := by
  have := runFrom_inv ops (BoundBuffer.new T c) b outs (inv_new T c) h
  simpa [BoundBuffer.new] using this

/-- Sanity check: the concrete scenario of spec section 8 on capacity 2. -/
theorem run_sanity_scenario : run Nat 2 [Op.queue 5, Op.queue 7, Op.dequeue] =
    some ({ size := 2, buffer := [7], add := true, remove := true }, [5]) := by
  decide

/-- Sanity check: a second queue on a full capacity-1 buffer blocks. -/
theorem run_sanity_full_blocks : run Nat 1 [Op.queue 5, Op.queue 7] = none := by
  decide

/-- State of the specialized BoundBuffer of src/main.rs (lines 12-17).  In the
source the element type is fixed to f32; the queue and dequeue bodies never
inspect element values, so the state is modelled parametrically in the element
type, exactly as lib.rs but with the main.rs operation bodies. -/
structure MainBoundBuffer (T : Type) where
  size : Nat
  buffer : List T
  add : Bool
  remove : Bool
deriving Repr, DecidableEq

/-- main.rs BoundBuffer::new (lines 20-27).  The source parameter has type u8
and is cast with `as usize`, which preserves the value; the u8 domain bounds
the capacity by 255. -/
def MainBoundBuffer.new (T : Type) (size : Nat) : MainBoundBuffer T :=
  { size := size, buffer := [], add := true, remove := false }

/-- main.rs BoundBuffer::queue (lines 29-73), completed-operation semantics.
Identical body to the lib.rs version. -/
def MainBoundBuffer.queue (b : MainBoundBuffer T) (v : T) : Option (MainBoundBuffer T) :=
  if b.add = true ∧ b.buffer.length < b.size then
    some { b with buffer := b.buffer ++ [v], remove := true }
  else
    none

/-- main.rs BoundBuffer::dequeue (lines 75-119), completed-operation
semantics.  Identical to the lib.rs version except that the final re-check of
the remove flag (lib.rs lines 116-122) is absent: after the pop the remove
flag is left unchanged (it was true for the call to complete). -/
def MainBoundBuffer.dequeue (b : MainBoundBuffer T) : Option (T × MainBoundBuffer T) :=
  match b.buffer with
  | [] => none
  | v :: rest =>
    if b.remove = true then
      some (v, { b with buffer := rest, add := true })
    else
      none

/-- Run a sequence of operations against the main.rs buffer. -/
def mainRunFrom (b : MainBoundBuffer T) : List (Op T) → Option (MainBoundBuffer T × List T)
  | [] => some (b, [])
  | Op.queue v :: rest =>
    match b.queue v with
    | none => none
    | some b1 => mainRunFrom b1 rest
  | Op.dequeue :: rest =>
    match b.dequeue with
    | none => none
    | some (v, b1) =>
      match mainRunFrom b1 rest with
      | none => none
      | some (b2, outs) => some (b2, v :: outs)

/-- Run a sequence of operations from a freshly constructed main.rs buffer. -/
def mainRun (T : Type) (c : Nat) (ops : List (Op T)) : Option (MainBoundBuffer T × List T) :=
  mainRunFrom (MainBoundBuffer.new T c) ops

/-- Coupling relation between a lib.rs state and a main.rs state: the two
agree on size, buffer contents and the add flag, and whenever the lib.rs
remove flag is set so is the main.rs one (the main.rs flag may additionally
stay true after the buffer drains, since main.rs dequeue omits the final
re-check). -/
def Rel (lb : BoundBuffer T) (mb : MainBoundBuffer T) : Prop :=
  lb.size = mb.size ∧ lb.buffer = mb.buffer ∧ lb.add = mb.add ∧
  (lb.remove = true → mb.remove = true)

theorem rel_new (T : Type) (c : Nat) :
    Rel (BoundBuffer.new T c) (MainBoundBuffer.new T c) := by
  refine ⟨rfl, rfl, rfl, ?_⟩
  intro h
  exact absurd h (by simp [BoundBuffer.new])

/-- The two implementations simulate each other step by step: from coupled
states satisfying the lib.rs invariant, a run of any operation sequence
either fails on both sides or succeeds on both with the same dequeued values,
coupled final states, and the invariant preserved. -/
theorem runFrom_equiv {c : Nat} :
    ∀ (ops : List (Op T)) (lb : BoundBuffer T) (mb : MainBoundBuffer T),
    Inv c lb → Rel lb mb →
    (runFrom lb ops = none ∧ mainRunFrom mb ops = none) ∨
    (∃ b2 m2 outs, runFrom lb ops = some (b2, outs) ∧
      mainRunFrom mb ops = some (m2, outs) ∧ Inv c b2 ∧ Rel b2 m2) := by
  intro ops
  induction ops with
  | nil =>
    intro lb mb hInv hRel
    exact Or.inr ⟨lb, mb, [], rfl, rfl, hInv, hRel⟩
  | cons op rest ih =>
    intro lb mb hInv hRel
    obtain ⟨hsz, hbuf, hadd, hrem⟩ := hRel
    cases op with
    | queue v =>
      rw [runFrom, mainRunFrom]
      by_cases hcond : lb.add = true ∧ lb.buffer.length < lb.size
      · have hq : lb.queue v =
            some { lb with buffer := lb.buffer ++ [v], remove := true } := by
          unfold BoundBuffer.queue
          rw [if_pos hcond]
        have hmq : mb.queue v =
            some { mb with buffer := mb.buffer ++ [v], remove := true } := by
          unfold MainBoundBuffer.queue
          rw [if_pos (by rw [← hsz, ← hbuf, ← hadd]; exact hcond)]
        rw [hq, hmq]
        obtain ⟨hInv1, _⟩ := queue_some_inv hInv hq
        exact ih _ _ hInv1 ⟨hsz, by simp [hbuf], hadd, by simp⟩
      · have hq : lb.queue v = none := by
          unfold BoundBuffer.queue
          rw [if_neg hcond]
        have hmq : mb.queue v = none := by
          unfold MainBoundBuffer.queue
          rw [if_neg (by rw [← hsz, ← hbuf, ← hadd]; exact hcond)]
        rw [hq, hmq]
        exact Or.inl ⟨rfl, rfl⟩
    | dequeue =>
      rw [runFrom, mainRunFrom]
      match hlbuf : lb.buffer with
      | [] =>
        have hd : lb.dequeue = none := by
          unfold BoundBuffer.dequeue
          rw [hlbuf]
        have hmd : mb.dequeue = none := by
          unfold MainBoundBuffer.dequeue
          rw [← hbuf, hlbuf]
        rw [hd, hmd]
        exact Or.inl ⟨rfl, rfl⟩
      | v :: tl =>
        have hlrem : lb.remove = true := hInv.2.2.2.mpr (by rw [hlbuf]; simp)
        have hmrem : mb.remove = true := hrem hlrem
        have hd : lb.dequeue =
            some (v, { lb with buffer := tl, add := true,
                               remove := if tl.isEmpty then false else true }) := by
          unfold BoundBuffer.dequeue
          rw [hlbuf]
          dsimp only
          rw [if_pos hlrem]
        have hmd : mb.dequeue =
            some (v, { mb with buffer := tl, add := true }) := by
          unfold MainBoundBuffer.dequeue
          rw [← hbuf, hlbuf]
          dsimp only
          rw [if_pos hmrem]
        rw [hd, hmd]
        dsimp only
        obtain ⟨hInv1, _⟩ := dequeue_some_inv hInv hd
        have hRel1 : Rel { lb with buffer := tl, add := true,
                                   remove := if tl.isEmpty then false else true }
            { mb with buffer := tl, add := true } := by
          refine ⟨hsz, rfl, rfl, ?_⟩
          intro _
          exact hmrem
        rcases ih _ _ hInv1 hRel1 with ⟨h1, h2⟩ | ⟨b2, m2, outs, h1, h2, hi, hr⟩
        · rw [h1, h2]
          exact Or.inl ⟨rfl, rfl⟩
        · rw [h1, h2]
          exact Or.inr ⟨b2, m2, v :: outs, rfl, rfl, hi, hr⟩

/-
  Lock-level embedding of the synchronisation structure of lib.rs queue and
  dequeue, for the claims about lock discipline.  The struct (lib.rs lines
  17-22) holds three separate mutexes: the buffer mutex guarding the VecDeque,
  and one mutex per condvar-paired boolean flag (add and remove).  Each
  operation body is transliterated as the sequence of lock acquisitions,
  releases, condvar waits and shared-state actions it performs, in source
  order; the wait loop body is replicated for a given number of iterations.
-/

/-- The three mutexes of the BoundBuffer struct (lib.rs lines 17-22): the
mutex guarding the item deque, and the two independently-locked boolean
readiness flags. -/
inductive LockId where
  | bufferLock
  | addFlag
  | removeFlag
deriving Repr, DecidableEq

/-- A synchronisation-relevant step of an operation body.  condWait l models
Condvar::wait on the mutex l: it atomically releases l for the duration of
the wait and reacquires it before returning, so the set of locks held before
and after the call is unchanged, while l is not held during the wait. -/
inductive SyncOp where
  | acquire (l : LockId)
  | release (l : LockId)
  | condWait (l : LockId)
  | checkAddReady
  | checkRemoveReady
  | pushBack
  | popFront
  | setAddTrue
  | setRemoveTrue
  | notifyAdd
  | notifyRemove
deriving Repr, DecidableEq

/-- One iteration of the wait loop of queue (lib.rs lines 53-60): wait on the
add-flag condvar, then re-lock the buffer, re-check the length-derived
predicate, and drop the buffer guard. -/
def queueWaitIter : List SyncOp :=
  [SyncOp.condWait LockId.addFlag, SyncOp.acquire LockId.bufferLock,
   SyncOp.checkAddReady, SyncOp.release LockId.bufferLock]

/-- The synchronisation trace of BoundBuffer::queue (lib.rs lines 42-74) with
k iterations of the wait loop: lock the add flag, lock the buffer, check the
length predicate, drop the buffer guard (line 50), run the wait loop, drop
the add-flag guard, then re-lock the buffer for the push, and finally lock
the remove flag to set it and notify. -/
def queueSyncTrace (k : Nat) : List SyncOp :=
  [SyncOp.acquire LockId.addFlag, SyncOp.acquire LockId.bufferLock,
   SyncOp.checkAddReady, SyncOp.release LockId.bufferLock] ++
  (List.replicate k queueWaitIter).flatten ++
  [SyncOp.release LockId.addFlag,
   SyncOp.acquire LockId.bufferLock, SyncOp.pushBack, SyncOp.release LockId.bufferLock,
   SyncOp.acquire LockId.removeFlag, SyncOp.setRemoveTrue, SyncOp.notifyRemove,
   SyncOp.release LockId.removeFlag]

/-- One iteration of the wait loop of dequeue (lib.rs lines 94-101). -/
def dequeueWaitIter : List SyncOp :=
  [SyncOp.condWait LockId.removeFlag, SyncOp.acquire LockId.bufferLock,
   SyncOp.checkRemoveReady, SyncOp.release LockId.bufferLock]

/-- The synchronisation trace of BoundBuffer::dequeue (lib.rs lines 83-125)
with k iterations of the wait loop, including the final re-check block
(lines 116-122), in which the remove-flag guard is dropped explicitly and
the buffer guard at the end of the function body. -/
def dequeueSyncTrace (k : Nat) : List SyncOp :=
  [SyncOp.acquire LockId.removeFlag, SyncOp.acquire LockId.bufferLock,
   SyncOp.checkRemoveReady, SyncOp.release LockId.bufferLock] ++
  (List.replicate k dequeueWaitIter).flatten ++
  [SyncOp.release LockId.removeFlag,
   SyncOp.acquire LockId.bufferLock, SyncOp.popFront, SyncOp.release LockId.bufferLock,
   SyncOp.acquire LockId.addFlag, SyncOp.setAddTrue, SyncOp.notifyAdd,
   SyncOp.release LockId.addFlag,
   SyncOp.acquire LockId.removeFlag, SyncOp.acquire LockId.bufferLock,
   SyncOp.checkRemoveReady, SyncOp.release LockId.removeFlag,
   SyncOp.release LockId.bufferLock]

/-- Effect of a step on the set of locks held by the thread. -/
def heldAfterOp (held : List LockId) : SyncOp → List LockId
  | SyncOp.acquire l => l :: held
  | SyncOp.release l => List.erase held l
  | _ => held

/-- Whether a trace obeys the single-lock discipline required by the spec for
a designated guard lock: every condvar wait is a wait on the guard itself,
entered while the guard is held (so that the wait primitive atomically
releases and reacquires exactly the lock protecting the shared predicate). -/
def singleLockDiscipline (guard : LockId) : List LockId → List SyncOp → Bool
  | _, [] => true
  | held, SyncOp.condWait l :: rest =>
    decide (l = guard) && decide (guard ∈ held) && singleLockDiscipline guard held rest
  | held, op :: rest => singleLockDiscipline guard (heldAfterOp held op) rest

/-- The locks waited on by a trace, in order. -/
def waitLocks (tr : List SyncOp) : List LockId :=
  tr.filterMap fun op =>
    match op with
    | SyncOp.condWait l => some l
    | _ => none

/-- The set of locks held at each condvar wait of a trace, in order. -/
def heldAtWaits : List LockId → List SyncOp → List (List LockId)
  | _, [] => []
  | held, SyncOp.condWait _ :: rest => held :: heldAtWaits held rest
  | held, op :: rest => heldAtWaits (heldAfterOp held op) rest

/-
  Claim theorems.
-/

/-- C1: every state of a BoundBuffer reachable from a freshly constructed
buffer of capacity c > 0 by a sequence of completed queue and dequeue
operations has a backing buffer whose length is between 0 and c. -/
theorem C1_capacity_invariant (T : Type) (c : Nat) (ops : List (Op T))
    (b : BoundBuffer T) (outs : List T)
    (_hc : 0 < c) (h : run T c ops = some (b, outs)) :
    0 ≤ b.buffer.length ∧ b.buffer.length ≤ c :=
  ⟨Nat.zero_le _, (run_inv h).1.2.2.1⟩

theorem C1_capacity_invariant_witness :
    0 ≤ ({ size := 2, buffer := [7], add := true, remove := true } :
      BoundBuffer Nat).buffer.length ∧
    ({ size := 2, buffer := [7], add := true, remove := true } :
      BoundBuffer Nat).buffer.length ≤ 2 :=
  C1_capacity_invariant Nat 2 [Op.queue 5, Op.queue 7, Op.dequeue]
    { size := 2, buffer := [7], add := true, remove := true } [5]
    (by decide) (by decide)

/-- C2: the values returned by successive dequeue calls of a completed run are
exactly the first values accepted by queue, in order: the i-th successful
dequeue returns the i-th queued value. -/
theorem C2_fifo_order (T : Type) (c : Nat) (ops : List (Op T))
    (b : BoundBuffer T) (outs : List T)
    (h : run T c ops = some (b, outs)) :
    outs = (inputs ops).take outs.length := by
  have hcons := (run_inv h).2
  rw [← hcons, List.take_left]

theorem C2_fifo_order_witness :
    ([1, 2] : List Nat) = (inputs [Op.queue 1, Op.queue 2, Op.dequeue,
      Op.dequeue, Op.queue 3]).take ([1, 2] : List Nat).length :=
  C2_fifo_order Nat 3 [Op.queue 1, Op.queue 2, Op.dequeue, Op.dequeue, Op.queue 3]
    { size := 3, buffer := [3], add := true, remove := true } [1, 2] (by decide)

/-- C3 counterexample: construction with capacity zero does not fail.  The
source constructor (lib.rs lines 26-33) performs no validation of the
requested capacity and has no error path, so calling new(0) returns an
ordinary, fully-formed BoundBuffer value rather than raising an error. -/
theorem C3_new_zero_counterexample :
    BoundBuffer.new Nat 0 =
      { size := 0, buffer := [], add := true, remove := false } := rfl

/-- C3 amended: new(0) raises no error and returns a BoundBuffer; however the
returned buffer is unusable, in that no queue or dequeue operation on it ever
completes: the only sequence of completed operations from new(0) is the empty
one, leaving the fresh state unchanged and producing no queue behaviour. -/
theorem C3_new_zero_unusable (T : Type) (ops : List (Op T))
    (b : BoundBuffer T) (outs : List T)
    (h : run T 0 ops = some (b, outs)) :
    ops = [] ∧ b = BoundBuffer.new T 0 ∧ outs = [] := by
  cases ops with
  | nil =>
    unfold run runFrom at h
    injection h with h
    injection h with hb houts
    exact ⟨rfl, hb.symm, houts.symm⟩
  | cons op rest =>
    cases op with
    | queue v =>
      unfold run runFrom BoundBuffer.queue at h
      simp [BoundBuffer.new] at h
    | dequeue =>
      unfold run runFrom BoundBuffer.dequeue at h
      simp [BoundBuffer.new] at h

theorem C3_new_zero_unusable_witness :
    ([] : List (Op Nat)) = [] ∧
    BoundBuffer.new Nat 0 = BoundBuffer.new Nat 0 ∧ ([] : List Nat) = [] :=
  C3_new_zero_unusable Nat [] (BoundBuffer.new Nat 0) [] rfl

/-- C4: the claim asserts that in queue and dequeue the readiness check and
the condvar wait happen while continuously holding the single lock guarding
the item deque, with no separately-locked boolean flags.  The source has the
opposite shape: on any blocking path (one or more wait iterations, e.g. a
queue call on a full buffer) the guard on the buffer mutex is dropped before
the wait (lib.rs line 50, line 59), the wait is performed on the mutex of the
corresponding boolean flag, and the add and remove flags are two distinct
locks, both distinct from the buffer mutex.  singleLockDiscipline states the
claimed discipline for the buffer lock; it evaluates to false on the traces,
and the lock held at each wait is exactly the flag mutex. -/
theorem C4_lock_discipline_refuted :
    singleLockDiscipline LockId.bufferLock [] (queueSyncTrace 1) = false ∧
    singleLockDiscipline LockId.bufferLock [] (dequeueSyncTrace 1) = false ∧
    waitLocks (queueSyncTrace 1) = [LockId.addFlag] ∧
    waitLocks (dequeueSyncTrace 1) = [LockId.removeFlag] ∧
    heldAtWaits [] (queueSyncTrace 1) = [[LockId.addFlag]] ∧
    heldAtWaits [] (dequeueSyncTrace 1) = [[LockId.removeFlag]] ∧
    LockId.addFlag ≠ LockId.removeFlag ∧
    LockId.addFlag ≠ LockId.bufferLock ∧
    LockId.removeFlag ≠ LockId.bufferLock := by
  decide

/-- C5: from any reachable state whose buffer is non-empty, dequeue completes
without failing, removes and returns the head (the oldest element still
present), leaves the remaining elements in order, and decreases the length by
exactly one. -/
theorem C5_dequeue_head (T : Type) (c : Nat) (ops : List (Op T))
    (b : BoundBuffer T) (outs : List T) (v : T) (rest : List T)
    (h : run T c ops = some (b, outs)) (hbuf : b.buffer = v :: rest) :
    ∃ b1, b.dequeue = some (v, b1) ∧ b1.buffer = rest ∧
      b1.buffer.length + 1 = b.buffer.length := by
  have hrem : b.remove = true :=
    (run_inv h).1.2.2.2.mpr (by rw [hbuf]; simp)
  have hd : b.dequeue =
      some (v, { b with buffer := rest, add := true,
                        remove := if rest.isEmpty then false else true }) := by
    unfold BoundBuffer.dequeue
    rw [hbuf]
    dsimp only
    rw [if_pos hrem]
  refine ⟨_, hd, rfl, ?_⟩
  rw [hbuf]
  rfl

theorem C5_dequeue_head_witness :
    ∃ b1, ({ size := 2, buffer := [4, 6], add := true, remove := true } :
        BoundBuffer Nat).dequeue = some (4, b1) ∧ b1.buffer = [6] ∧
      b1.buffer.length + 1 =
        ({ size := 2, buffer := [4, 6], add := true, remove := true } :
          BoundBuffer Nat).buffer.length :=
  C5_dequeue_head Nat 2 [Op.queue 4, Op.queue 6]
    { size := 2, buffer := [4, 6], add := true, remove := true } [] 4 [6]
    (by decide) (by decide)

/-- C6: from any reachable state of a buffer of capacity c > 0 whose length is
strictly below c, queue(v) completes without failing, appends v at the back,
leaves the existing elements unchanged in order, and increases the length by
exactly one. -/
theorem C6_queue_append (T : Type) (c : Nat) (ops : List (Op T))
    (b : BoundBuffer T) (outs : List T) (v : T)
    (_hc : 0 < c) (h : run T c ops = some (b, outs))
    (hlen : b.buffer.length < c) :
    ∃ b1, b.queue v = some b1 ∧ b1.buffer = b.buffer ++ [v] ∧
      b1.buffer.length = b.buffer.length + 1 := by
  obtain ⟨hsize, hadd, _, _⟩ := (run_inv h).1
  refine ⟨{ b with buffer := b.buffer ++ [v], remove := true }, ?_, rfl, by simp⟩
  unfold BoundBuffer.queue
  rw [if_pos ⟨hadd, by rw [hsize]; exact hlen⟩]

theorem C6_queue_append_witness :
    ∃ b1, ({ size := 2, buffer := [9], add := true, remove := true } :
        BoundBuffer Nat).queue 8 = some b1 ∧
      b1.buffer = ({ size := 2, buffer := [9], add := true, remove := true } :
        BoundBuffer Nat).buffer ++ [8] ∧
      b1.buffer.length =
        ({ size := 2, buffer := [9], add := true, remove := true } :
          BoundBuffer Nat).buffer.length + 1 :=
  C6_queue_append Nat 2 [Op.queue 9]
    { size := 2, buffer := [9], add := true, remove := true } [] 8
    (by decide) (by decide) (by decide)

/-- C7: no value is lost or duplicated: after any completed run, the multiset
of dequeued values together with the multiset of values still in the buffer
equals the multiset of values accepted by queue. -/
theorem C7_no_lost_values (T : Type) (c : Nat) (ops : List (Op T))
    (b : BoundBuffer T) (outs : List T)
    (h : run T c ops = some (b, outs)) :
    (outs : Multiset T) + (b.buffer : Multiset T) = (inputs ops : Multiset T) := by
  have hcons := (run_inv h).2
  rw [← hcons]
  simp

theorem C7_no_lost_values_witness :
    (([2] : List Nat) : Multiset Nat) +
      (([3] : List Nat) : Multiset Nat) =
      ((inputs [Op.queue 2, Op.queue 3, Op.dequeue] : List Nat) : Multiset Nat) := by
  have h := C7_no_lost_values Nat 2 [Op.queue 2, Op.queue 3, Op.dequeue]
    { size := 2, buffer := [3], add := true, remove := true } [2] (by decide)
  simpa using h

/-- C8: for every capacity c > 0, new(c) returns a buffer whose backing deque
is empty with the size bound set to c, whose remove flag (not_empty readiness)
starts false, and whose add flag (not_full readiness) starts true. -/
theorem C8_new_initial_state (T : Type) (c : Nat) (_hc : 0 < c) :
    (BoundBuffer.new T c).buffer = [] ∧ (BoundBuffer.new T c).size = c ∧
    (BoundBuffer.new T c).add = true ∧ (BoundBuffer.new T c).remove = false :=
  ⟨rfl, rfl, rfl, rfl⟩

theorem C8_new_initial_state_witness :
    (BoundBuffer.new Nat 3).buffer = [] ∧ (BoundBuffer.new Nat 3).size = 3 ∧
    (BoundBuffer.new Nat 3).add = true ∧ (BoundBuffer.new Nat 3).remove = false :=
  C8_new_initial_state Nat 3 (by decide)

/-- C9 counterexample: the add flag does not track "length strictly below
capacity".  Queueing one value into a fresh buffer of capacity 1 is a
completed run reaching a state whose buffer is full (length 1 = capacity),
yet whose add flag is still true, because queue never clears the add flag
after its push (lib.rs lines 63-74 update only the remove flag). -/
theorem C9_flags_counterexample :
    run Nat 1 [Op.queue 0] =
      some ({ size := 1, buffer := [0], add := true, remove := true }, []) ∧
    ¬ ((1 : Nat) < 1) := by
  decide

/-- C9 amended: in every reachable state the remove flag is true exactly when
the buffer is non-empty, and the add flag is simply always true — in
particular it is true whenever the length is strictly below capacity, but it
remains true when the buffer is full. -/
theorem C9_flags_amended (T : Type) (c : Nat) (ops : List (Op T))
    (b : BoundBuffer T) (outs : List T)
    (_hc : 0 < c) (h : run T c ops = some (b, outs)) :
    b.add = true ∧ (b.remove = true ↔ b.buffer ≠ []) :=
  ⟨(run_inv h).1.2.1, (run_inv h).1.2.2.2⟩

theorem C9_flags_amended_witness :
    ({ size := 1, buffer := [0], add := true, remove := true } :
      BoundBuffer Nat).add = true ∧
    (({ size := 1, buffer := [0], add := true, remove := true } :
      BoundBuffer Nat).remove = true ↔
      ({ size := 1, buffer := [0], add := true, remove := true } :
        BoundBuffer Nat).buffer ≠ []) :=
  C9_flags_amended Nat 1 [Op.queue 0]
    { size := 1, buffer := [0], add := true, remove := true } []
    (by decide) (by decide)

/-- C10: the generic lib.rs BoundBuffer and the specialized main.rs
BoundBuffer are observationally equivalent: for every operation sequence run
from freshly constructed buffers of the same capacity (within the u8 domain
of the main.rs constructor), either both runs block, or both complete with
the same dequeued values and the same final buffer contents. -/
theorem C10_lib_main_equiv (T : Type) (c : Nat) (ops : List (Op T))
    (_hc : c ≤ 255) :
    (run T c ops).map (fun p => (p.1.buffer, p.2)) =
      (mainRun T c ops).map (fun p => (p.1.buffer, p.2)) := by
  rcases runFrom_equiv ops (BoundBuffer.new T c) (MainBoundBuffer.new T c)
      (inv_new T c) (rel_new T c) with ⟨h1, h2⟩ | ⟨b2, m2, outs, h1, h2, _, hr⟩
  · rw [run, mainRun, h1, h2]
    rfl
  · rw [run, mainRun, h1, h2]
    simp [hr.2.1]

theorem C10_lib_main_equiv_witness :
    (run Nat 2 [Op.queue 5, Op.dequeue, Op.dequeue]).map
        (fun p => (p.1.buffer, p.2)) =
      (mainRun Nat 2 [Op.queue 5, Op.dequeue, Op.dequeue]).map
        (fun p => (p.1.buffer, p.2)) :=
  C10_lib_main_equiv Nat 2 [Op.queue 5, Op.dequeue, Op.dequeue] (by decide)

end BoundBufferDemo
